import Mathlib

/-!
Shallow embedding of the folder-hierarchy subsystem of the farmon backend
(`apps/files/folder_views.py`, `apps/files/folder_serializers.py`,
`apps/files/move_serializers.py`).  Folders and files are flat records
keyed by numeric ids; the database is a pair of lists.  Django queryset
filters become `List.find?`/`List.filter` with the same predicates.
The `Folder` model class itself is not part of the available sources, so
its traversal methods (`get_ancestors`, `get_descendants`, `soft_delete`)
are modelled from the specification where indicated.
-/

set_option maxHeartbeats 1000000

namespace Farmon

/-- A folder row: id, owner (user id), name, optional parent folder id,
creation time, and the soft-delete timestamp (`none` = active). -/
structure Folder where
  fid : Nat
  owner : Nat
  name : String
  parent : Option Nat
  createdAt : Nat
  deletedAt : Option Nat
  deriving Repr, DecidableEq

/-- A file row: id, owner, name, optional containing folder id, size,
creation time, soft-delete timestamp. -/
structure FileRec where
  fid : Nat
  owner : Nat
  fname : String
  folder : Option Nat
  fileSize : Nat
  createdAt : Nat
  deletedAt : Option Nat
  deriving Repr, DecidableEq

/-- The durable store: all folder rows and all file rows. -/
structure St where
  folders : List Folder
  files : List FileRec
  deriving Repr, DecidableEq

/-- Row lookup by primary key (`Folder.objects` filtered by `id=i`). -/
def findFolder (s : St) (i : Nat) : Option Folder :=
  s.folders.find? (fun f => f.fid == i)

/-- The parent-id function induced by the store. -/
def par (s : St) (x : Nat) : Option Nat :=
  (findFolder s x).bind (fun f => f.parent)

/-- A folder id denotes an existing, non-soft-deleted row. -/
def isActive (s : St) (i : Nat) : Bool :=
  match findFolder s i with
  | some f => f.deletedAt.isNone
  | none => false

/-- `get_object_or_404(Folder, id=i, user=u, deleted_at__isnull=True)`. -/
def lookupActiveOwned (s : St) (u i : Nat) : Option Folder :=
  s.folders.find? (fun f => f.fid == i && f.owner == u && f.deletedAt.isNone)

/-- `get_object_or_404(Folder, id=i, user=u, deleted_at__isnull=False)`. -/
def lookupDeletedOwned (s : St) (u i : Nat) : Option Folder :=
  s.folders.find? (fun f => f.fid == i && f.owner == u && !f.deletedAt.isNone)

/-- `n`-fold application of a parent function, stepping first. -/
def iterP (p : Nat → Option Nat) : Nat → Nat → Option Nat
  | 0, x => some x
  | n + 1, x =>
    match p x with
    | none => none
    | some y => iterP p n y

/-- Modelled from the spec: `Ancestors(folderId)` walks the parent chain
iteratively (here fuelled; the fuel is instantiated with the number of
folder rows, which bounds every simple parent chain).  The produced list
holds the immediate parent first; callers use it only for membership. -/
def ancChain (p : Nat → Option Nat) : Nat → Nat → List Nat
  | 0, _ => []
  | fuel + 1, x =>
    match p x with
    | none => []
    | some y => y :: ancChain p fuel y

theorem iterP_add (p : Nat → Option Nat) (m n x : Nat) :
    iterP p (m + n) x = (iterP p m x).bind (iterP p n) := by
  induction m generalizing x with
  | zero => simp [iterP]
  | succ k ih =>
    have : k + 1 + n = (k + n) + 1 := by omega
    rw [this]
    simp only [iterP]
    cases p x with
    | none => simp
    | some y => simp [ih]

theorem iterP_succ_right (p : Nat → Option Nat) (n x : Nat) :
    iterP p (n + 1) x = (iterP p n x).bind p := by
  have h := iterP_add p n 1 x
  rw [h]
  cases iterP p n x with
  | none => rfl
  | some y =>
    simp [iterP]
    cases p y <;> simp [iterP]

theorem mem_ancChain {p : Nat → Option Nat} {fuel x a : Nat} :
    a ∈ ancChain p fuel x ↔ ∃ n, n < fuel ∧ iterP p (n + 1) x = some a := by
  induction fuel generalizing x with
  | zero => simp [ancChain]
  | succ k ih =>
    simp only [ancChain]
    cases hp : p x with
    | none =>
      simp only [List.not_mem_nil, false_iff]
      rintro ⟨n, _, hit⟩
      simp [iterP, hp] at hit
    | some y =>
      simp only [List.mem_cons, ih]
      constructor
      · rintro (rfl | ⟨n, hn, hit⟩)
        · exact ⟨0, Nat.succ_pos k, by simp [iterP, hp]⟩
        · exact ⟨n + 1, by omega, by simpa [iterP, hp] using hit⟩
      · rintro ⟨n, hn, hit⟩
        cases n with
        | zero =>
          simp [iterP, hp] at hit
          exact Or.inl hit.symm
        | succ m =>
          right
          refine ⟨m, by omega, ?_⟩
          simpa [iterP, hp] using hit

/-- Database well-formedness: folder primary keys are unique. -/
def WF (s : St) : Prop := (s.folders.map (fun f => f.fid)).Nodup

theorem iterP_isSome_of_le {p : Nat → Option Nat} {n x : Nat} {a : Nat}
    (h : iterP p n x = some a) {m : Nat} (hm : m ≤ n) :
    (iterP p m x).isSome := by
  have : n = m + (n - m) := by omega
  rw [this, iterP_add] at h
  cases hq : iterP p m x with
  | none => rw [hq] at h; simp at h
  | some y => simp

/-- If a trajectory never visits `F` as a step source, the updated parent
function produces the same trajectory as the original one. -/
theorem iter_eq_of_avoid {p q : Nat → Option Nat} {F : Nat}
    (hagree : ∀ y, y ≠ F → q y = p y) :
    ∀ n x, (∀ i, i < n → iterP q i x ≠ some F) → iterP q n x = iterP p n x := by
  intro n
  induction n with
  | zero => intro x _; rfl
  | succ k ih =>
    intro x havoid
    have hx : x ≠ F := by
      intro hxF
      exact havoid 0 (Nat.succ_pos k) (by simp [iterP, hxF])
    simp only [iterP, hagree x hx]
    cases hp : p x with
    | none => rfl
    | some y =>
      apply ih
      intro i hi hbad
      apply havoid (i + 1) (by omega)
      simp [iterP, hagree x hx, hp, hbad]

/-- Pidgeonhole bound: any ancestor reachable through the parent chain is
reached within `s.folders.length` steps (the trajectory prefix is
duplicate-free and every step source is a stored row), hence appears in
the fuelled ancestor chain used by the move endpoint. -/
theorem reach_mem_ancChain (s : St) {x a : Nat}
    (h : ∃ n, iterP (par s) (n + 1) x = some a) :
    a ∈ ancChain (par s) s.folders.length x := by
  classical
  set p := par s with hpdef
  let n₀ := Nat.find h
  have h₀ : iterP p (n₀ + 1) x = some a := Nat.find_spec h
  have hmin : ∀ m, m < n₀ → iterP p (m + 1) x ≠ some a := fun m hm => Nat.find_min h hm
  rw [mem_ancChain]
  by_cases hlt : n₀ < s.folders.length
  · exact ⟨n₀, hlt, h₀⟩
  exfalso
  push_neg at hlt
  -- every prefix of the trajectory is defined
  have hsome : ∀ i, i ≤ n₀ + 1 → (iterP p i x).isSome := fun i hi =>
    iterP_isSome_of_le h₀ hi
  -- the trajectory values, defaulted
  set g : Nat → Nat := fun i => (iterP p i x).getD 0 with hg
  have hgsome : ∀ i, i ≤ n₀ + 1 → iterP p i x = some (g i) := by
    intro i hi
    have := hsome i hi
    cases hq : iterP p i x with
    | none => rw [hq] at this; simp at this
    | some v => simp [hg, hq]
  -- injectivity on the first n₀ + 1 indices
  have hinj : ∀ i, i ≤ n₀ → ∀ j, j ≤ n₀ → g i = g j → i = j := by
    intro i hi j hj hgij
    by_contra hne
    -- symmetrise to i < j
    rcases Nat.lt_or_ge i j with hij | hij
    · have hji : iterP p j x = some (g i) := by rw [hgij]; exact hgsome j (by omega)
      have hii : iterP p i x = some (g i) := hgsome i (by omega)
      have htail : iterP p (n₀ + 1 - j) (g i) = some a := by
        have : n₀ + 1 = j + (n₀ + 1 - j) := by omega
        rw [this, iterP_add, hji] at h₀
        simpa using h₀
      have hshort : iterP p (i + (n₀ - j) + 1) x = some a := by
        have harith : i + (n₀ - j) + 1 = i + (n₀ + 1 - j) := by omega
        rw [harith, iterP_add, hii]
        simpa using htail
      exact hmin (i + (n₀ - j)) (by omega) hshort
    · have hij' : j < i := by omega
      have hji : iterP p i x = some (g j) := by rw [← hgij]; exact hgsome i (by omega)
      have hjj : iterP p j x = some (g j) := hgsome j (by omega)
      have htail : iterP p (n₀ + 1 - i) (g j) = some a := by
        have : n₀ + 1 = i + (n₀ + 1 - i) := by omega
        rw [this, iterP_add, hji] at h₀
        simpa using h₀
      have hshort : iterP p (j + (n₀ - i) + 1) x = some a := by
        have harith : j + (n₀ - i) + 1 = j + (n₀ + 1 - i) := by omega
        rw [harith, iterP_add, hjj]
        simpa using htail
      exact hmin (j + (n₀ - i)) (by omega) hshort
  -- each trajectory value is the id of a stored folder row
  have hdom : ∀ i, i ≤ n₀ → g i ∈ s.folders.map (fun f => f.fid) := by
    intro i hi
    have hstep : (iterP p (i + 1) x).isSome := hsome (i + 1) (by omega)
    rw [iterP_succ_right, hgsome i (by omega)] at hstep
    have hstep2 : (p (g i)).isSome := hstep
    cases hpv : p (g i) with
    | none => rw [hpv] at hstep2; simp at hstep2
    | some w =>
      have : (findFolder s (g i)).isSome := by
        rw [hpdef] at hpv
        unfold par at hpv
        cases hf : findFolder s (g i) with
        | none => rw [hf] at hpv; simp at hpv
        | some f => simp
      cases hf : findFolder s (g i) with
      | none => rw [hf] at this; simp at this
      | some f =>
        have hf' : s.folders.find? (fun f => f.fid == g i) = some f := hf
        have hmem : f ∈ s.folders := List.mem_of_find?_eq_some hf'
        have hfid := List.find?_some hf'
        have : f.fid = g i := by simpa using hfid
        rw [← this]
        exact List.mem_map_of_mem (fun f => f.fid) hmem
  -- the list of the first n₀ + 1 trajectory values is nodup and included
  set L : List Nat := (List.range (n₀ + 1)).map g with hL
  have hnodup : L.Nodup := by
    refine List.Nodup.map_on ?_ (List.nodup_range _)
    intro i hi j hj hgij
    exact hinj i (by simpa using Nat.lt_succ_iff.mp (List.mem_range.mp hi))
      j (by simpa using Nat.lt_succ_iff.mp (List.mem_range.mp hj)) hgij
  have hsub : L ⊆ s.folders.map (fun f => f.fid) := by
    intro v hv
    rw [hL, List.mem_map] at hv
    rcases hv with ⟨i, hi, rfl⟩
    exact hdom i (Nat.lt_succ_iff.mp (List.mem_range.mp hi))
  have hlen : L.length ≤ (s.folders.map (fun f => f.fid)).length :=
    (List.subperm_of_subset hnodup hsub).length_le
  rw [hL] at hlen
  simp only [List.length_map, List.length_range] at hlen
  omega

/-- Errors surfaced by the move endpoint: 404 on the folder, the
serializer's "Parent folder not found or access denied", and the cycle
rejection ("Cannot move folder to itself or its descendant"). -/
inductive MvErr where
  | notFound
  | parentNotFound
  | cycle
  deriving Repr, DecidableEq

/-- `folder.parent = new_parent; folder.save()`: update the parent column
of the row(s) with the given id, leaving every other column untouched. -/
def setParent (s : St) (i : Nat) (q : Option Nat) : St :=
  { s with
    folders := s.folders.map (fun g => if g.fid == i then { g with parent := q } else g) }

/-- Embeds `MoveFolderView.post`: 404-lookup of the folder
(id, user, active), serializer validation of `parent_id` (must resolve to
an active folder of the same user when present), then the circular
reference check `folder in new_parent.get_ancestors() or
folder == new_parent`, and finally the parent update.
`Folder.get_ancestors` is modelled from the spec (walk of the parent
chain) via `ancChain`, fuelled by the number of folder rows. -/
def moveFolder (s : St) (u folderId : Nat) (parentId : Option Nat) : Except MvErr St :=
  match lookupActiveOwned s u folderId with
  | none => .error .notFound
  | some _ =>
    match parentId with
    | none => .ok (setParent s folderId none)
    | some pid =>
      match lookupActiveOwned s u pid with
      | none => .error .parentNotFound
      | some _ =>
        if folderId ∈ ancChain (par s) s.folders.length pid ∨ folderId = pid then
          .error .cycle
        else
          .ok (setParent s folderId (some pid))

/-- The store after a move request: the new store on success, the
unchanged store when the endpoint responded with an error. -/
def applyMove (s : St) (u folderId : Nat) (parentId : Option Nat) : St :=
  match moveFolder s u folderId parentId with
  | .ok s' => s'
  | .error _ => s

/-- A sequence of move requests `(user, folderId, parentId)` applied
through the endpoint. -/
def applyMoves (s : St) (ops : List (Nat × Nat × Option Nat)) : St :=
  ops.foldl (fun t op => applyMove t op.1 op.2.1 op.2.2) s

/-- The folder id is (transitively) its own ancestor. -/
def SelfAncestor (s : St) (i : Nat) : Prop :=
  ∃ n, iterP (par s) (n + 1) i = some i

/-- Acyclicity: no active folder is its own ancestor. -/
def Acyc (s : St) : Prop :=
  ∀ i, isActive s i = true → ¬ SelfAncestor s i

theorem findFolder_fid {s : St} {x : Nat} {f : Folder}
    (h : findFolder s x = some f) : f.fid = x := by
  have h' : s.folders.find? (fun g => g.fid == x) = some f := h
  have := List.find?_some h'
  simpa using this

theorem find?_fid_map (u : Folder → Folder) (hu : ∀ g, (u g).fid = g.fid)
    (l : List Folder) (x : Nat) :
    (l.map u).find? (fun f => f.fid == x) = (l.find? (fun f => f.fid == x)).map u := by
  induction l with
  | nil => rfl
  | cons hd tl ih =>
    simp only [List.map_cons]
    by_cases h : hd.fid = x
    · rw [List.find?_cons_of_pos _ (by simp [hu, h]),
        List.find?_cons_of_pos _ (by simp [h])]
      rfl
    · rw [List.find?_cons_of_neg _ (by simp [hu, h]),
        List.find?_cons_of_neg _ (by simp [h])]
      exact ih

theorem findFolder_setParent (s : St) (i : Nat) (q : Option Nat) (x : Nat) :
    findFolder (setParent s i q) x
      = (findFolder s x).map (fun g => if g.fid == i then { g with parent := q } else g) := by
  unfold findFolder setParent
  exact find?_fid_map _ (fun g => by by_cases h : g.fid = i <;> simp [h]) _ x

theorem par_setParent (s : St) (i : Nat) (q : Option Nat)
    (hf : (findFolder s i).isSome) :
    par (setParent s i q) = fun x => if x = i then q else par s x := by
  funext x
  unfold par
  rw [findFolder_setParent]
  by_cases hx : x = i
  · subst hx
    cases hff : findFolder s x with
    | none => rw [hff] at hf; simp at hf
    | some f =>
      have hfid : f.fid = x := findFolder_fid hff
      simp [hfid]
  · cases hff : findFolder s x with
    | none => simp [hx]
    | some f =>
      have hfid : f.fid = x := findFolder_fid hff
      simp [hfid, hx]

theorem isActive_setParent (s : St) (i : Nat) (q : Option Nat) (x : Nat) :
    isActive (setParent s i q) x = isActive s x := by
  unfold isActive
  rw [findFolder_setParent]
  cases hff : findFolder s x with
  | none => rfl
  | some f => by_cases h : f.fid = i <;> simp [h]

theorem findFolder_isSome_of_lookup {s : St} {u i : Nat} {f : Folder}
    (h : lookupActiveOwned s u i = some f) : (findFolder s i).isSome := by
  have h' : s.folders.find?
      (fun f => f.fid == i && f.owner == u && f.deletedAt.isNone) = some f := h
  have hmem := List.mem_of_find?_eq_some h'
  have hpred := List.find?_some h'
  simp only [Bool.and_eq_true, beq_iff_eq] at hpred
  unfold findFolder
  rw [List.find?_isSome]
  exact ⟨f, hmem, by simp [hpred.1.1]⟩

theorem rotate_cycle {p' : Nat → Option Nat} {x F n i : Nat}
    (hcyc : iterP p' (n + 1) x = some x) (hi : i < n + 1)
    (hhit : iterP p' i x = some F) :
    iterP p' (n + 1) F = some F := by
  have htail : iterP p' (n + 1 - i) F = some x := by
    have harith : n + 1 = i + (n + 1 - i) := by omega
    rw [harith, iterP_add, hhit] at hcyc
    simpa using hcyc
  have hcomp : iterP p' ((n + 1 - i) + i) F = some F := by
    rw [iterP_add, htail]
    simpa using hhit
  have harith : (n + 1 - i) + i = n + 1 := by omega
  rwa [harith] at hcomp

/-- Characterisation of a successful move response: the returned store is
the parent update, the folder row exists, and (when a target parent was
given) the cycle check was passed. -/
theorem moveFolder_ok {s : St} {u F : Nat} {pid : Option Nat} {s' : St}
    (h : moveFolder s u F pid = .ok s') :
    s' = setParent s F pid ∧ (findFolder s F).isSome ∧
      ∀ p, pid = some p →
        F ∉ ancChain (par s) s.folders.length p ∧ F ≠ p := by
  unfold moveFolder at h
  cases hl : lookupActiveOwned s u F with
  | none => simp [hl] at h
  | some f =>
    have hfs := findFolder_isSome_of_lookup hl
    simp only [hl] at h
    cases pid with
    | none =>
      simp only [Except.ok.injEq] at h
      exact ⟨h.symm, hfs, fun p hp => nomatch hp⟩
    | some p =>
      cases hlp : lookupActiveOwned s u p with
      | none => simp [hlp] at h
      | some g =>
        simp only [hlp] at h
        by_cases hc : F ∈ ancChain (par s) s.folders.length p ∨ F = p
        · rw [if_pos hc] at h
          simp at h
        · rw [if_neg hc] at h
          simp only [Except.ok.injEq] at h
          push_neg at hc
          exact ⟨h.symm, hfs, fun q hq => by cases hq; exact hc⟩

/-- One validated move request preserves acyclicity of the active forest. -/
theorem acyc_applyMove (s : St) (u F : Nat) (pid : Option Nat)
    (hacyc : Acyc s) : Acyc (applyMove s u F pid) := by
  cases hmv : moveFolder s u F pid with
  | error e =>
    have happ : applyMove s u F pid = s := by simp [applyMove, hmv]
    rw [happ]
    exact hacyc
  | ok s' =>
    have happ : applyMove s u F pid = s' := by simp [applyMove, hmv]
    rw [happ]
    obtain ⟨rfl, hfs, hchk⟩ := moveFolder_ok hmv
    intro x hx hsa
    rw [isActive_setParent] at hx
    obtain ⟨n, hn⟩ := hsa
    rw [par_setParent s F pid hfs] at hn
    set p' : Nat → Option Nat := fun y => if y = F then pid else par s y with hp'
    have hagree : ∀ y, y ≠ F → p' y = par s y := by
      intro y hy
      simp [hp', hy]
    by_cases hhit : ∃ i, i < n + 1 ∧ iterP p' i x = some F
    · obtain ⟨i, hi, hit⟩ := hhit
      have hcycF : iterP p' (n + 1) F = some F := rotate_cycle hn hi hit
      cases pid with
      | none =>
        have hnone : iterP p' (n + 1) F = none := by
          simp [iterP, hp']
        rw [hnone] at hcycF
        exact absurd hcycF (by simp)
      | some pd =>
        have hstep : iterP p' n pd = some F := by
          have hred : iterP p' (n + 1) F = iterP p' n pd := by
            simp [iterP, hp']
          rw [hred] at hcycF
          exact hcycF
        cases n with
        | zero =>
          simp [iterP] at hstep
          exact (hchk pd rfl).2 hstep.symm
        | succ m =>
          classical
          have hex : ∃ j, iterP p' j pd = some F := ⟨m + 1, hstep⟩
          have hj₀ : iterP p' (Nat.find hex) pd = some F := Nat.find_spec hex
          have hjmin : ∀ i, i < Nat.find hex → iterP p' i pd ≠ some F :=
            fun i hi => Nat.find_min hex hi
          have hj₀pos : Nat.find hex ≠ 0 := by
            intro h0
            rw [h0] at hj₀
            simp [iterP] at hj₀
            exact (hchk pd rfl).2 hj₀.symm
          obtain ⟨k, hk⟩ : ∃ k, Nat.find hex = k + 1 :=
            ⟨Nat.find hex - 1, by omega⟩
          have heq := iter_eq_of_avoid hagree (Nat.find hex) pd hjmin
          rw [heq] at hj₀
          have hreach : F ∈ ancChain (par s) s.folders.length pd :=
            reach_mem_ancChain s ⟨k, by rw [← hk]; exact hj₀⟩
          exact (hchk pd rfl).1 hreach
    · push_neg at hhit
      have heq := iter_eq_of_avoid hagree (n + 1) x hhit
      rw [heq] at hn
      exact hacyc x hx ⟨n, hn⟩

/-- Acyclicity follows from a bounded, decidable check on the rows. -/
theorem acyc_of_rows (s : St)
    (h : ∀ f ∈ s.folders, f.deletedAt.isNone →
      f.fid ∉ ancChain (par s) s.folders.length f.fid) :
    Acyc s := by
  intro i hi hsa
  unfold isActive at hi
  cases hff : findFolder s i with
  | none => rw [hff] at hi; simp at hi
  | some f =>
    rw [hff] at hi
    have hfid := findFolder_fid hff
    have hmem : f ∈ s.folders :=
      List.mem_of_find?_eq_some (show s.folders.find? (fun g => g.fid == i) = some f from hff)
    have hchain : i ∈ ancChain (par s) s.folders.length i := reach_mem_ancChain s hsa
    rw [← hfid] at hchain
    exact h f hmem hi hchain

/-- C1.  Acyclicity invariant: starting from a store in which no active
folder is its own ancestor, after any sequence of move requests applied
through the move endpoint's validation, no active folder is its own
ancestor. -/
theorem moveFolder_preserves_acyclicity (s : St) (ops : List (Nat × Nat × Option Nat))
    (hacyc : Acyc s) : Acyc (applyMoves s ops) := by
  induction ops generalizing s with
  | nil => exact hacyc
  | cons op rest ih =>
    have hstep : Acyc (applyMove s op.1 op.2.1 op.2.2) :=
      acyc_applyMove s op.1 op.2.1 op.2.2 hacyc
    have hfold : applyMoves s (op :: rest) = applyMoves (applyMove s op.1 op.2.1 op.2.2) rest := rfl
    rw [hfold]
    exact ih _ hstep

/-- Example store: folder `A` (id 1) at root and folder `B` (id 2) under
`A`, both owned by user 0 and active; no files. -/
def exAB : St :=
  { folders := [⟨1, 0, "A", none, 0, none⟩, ⟨2, 0, "B", some 1, 1, none⟩],
    files := [] }

/-- Witness for C1: the two-folder store satisfies the acyclicity
hypothesis, and the conclusion holds after a concrete move sequence. -/
theorem moveFolder_preserves_acyclicity_witness :
    Acyc exAB ∧ Acyc (applyMoves exAB [(0, 2, none), (0, 2, some 1)]) :=
  ⟨acyc_of_rows exAB (by decide),
    moveFolder_preserves_acyclicity exAB [(0, 2, none), (0, 2, some 1)]
      (acyc_of_rows exAB (by decide))⟩

/-- C2.  For an active folder `F` and an active target parent `P`, both
owned by the requester, the move endpoint answers with the cycle error
exactly when `P` is `F` itself or `F` occurs in `P`'s ancestor chain, and
a cycle rejection leaves the store — hence `F`'s parent reference —
unchanged. -/
theorem moveFolder_cycle_iff (s : St) (u F P : Nat) (f g : Folder)
    (hF : lookupActiveOwned s u F = some f) (hP : lookupActiveOwned s u P = some g) :
    (moveFolder s u F (some P) = .error .cycle
      ↔ (P = F ∨ ∃ n, iterP (par s) (n + 1) P = some F))
    ∧ (moveFolder s u F (some P) = .error .cycle → applyMove s u F (some P) = s) := by
  constructor
  · unfold moveFolder
    simp only [hF, hP]
    by_cases hc : F ∈ ancChain (par s) s.folders.length P ∨ F = P
    · rw [if_pos hc]
      refine ⟨fun _ => ?_, fun _ => rfl⟩
      rcases hc with hmem | heq
      · rcases mem_ancChain.mp hmem with ⟨n, _, hit⟩
        exact Or.inr ⟨n, hit⟩
      · exact Or.inl heq.symm
    · rw [if_neg hc]
      push_neg at hc
      constructor
      · intro hbad
        exact absurd hbad (by simp)
      · rintro (heq | ⟨n, hn⟩)
        · exact absurd heq.symm hc.2
        · exact absurd (reach_mem_ancChain s ⟨n, hn⟩) hc.1
  · intro herr
    simp [applyMove, herr]

/-- Witness for C2: in the two-folder store, `Move(A, newParent=B)` is a
cycle rejection and the store is unchanged. -/
theorem moveFolder_cycle_iff_witness :
    lookupActiveOwned exAB 0 1 = some ⟨1, 0, "A", none, 0, none⟩
    ∧ lookupActiveOwned exAB 0 2 = some ⟨2, 0, "B", some 1, 1, none⟩
    ∧ ((moveFolder exAB 0 1 (some 2) = .error .cycle
        ↔ (2 = 1 ∨ ∃ n, iterP (par exAB) (n + 1) 2 = some 1))
      ∧ (moveFolder exAB 0 1 (some 2) = .error .cycle → applyMove exAB 0 1 (some 2) = exAB)) :=
  ⟨rfl, rfl, moveFolder_cycle_iff exAB 0 1 2 _ _ rfl rfl⟩

/-- Example store for the move/name interaction: folder `dup` (id 1) at
root, a second active folder also named `dup` (id 2) under folder `P`
(id 3, at root); all owned by user 0; no files. -/
def exDup : St :=
  { folders := [⟨1, 0, "dup", none, 0, none⟩, ⟨2, 0, "dup", some 3, 1, none⟩,
      ⟨3, 0, "P", none, 2, none⟩],
    files := [] }

/-- Counterexample to C3 as stated: an active folder named `dup` already
sits under (owner 0, parent 3), yet moving folder 1 (also named `dup`)
under folder 3 succeeds — no name-conflict error — and folder 1's parent
reference does change from root to folder 3. -/
theorem moveFolder_name_conflict_counterexample :
    (∃ d ∈ exDup.folders, d.owner = 0 ∧ d.parent = some 3 ∧ d.deletedAt = none
      ∧ d.name = "dup")
    ∧ moveFolder exDup 0 1 (some 3) = .ok (setParent exDup 1 (some 3))
    ∧ par (applyMove exDup 0 1 (some 3)) 1 = some 3
    ∧ par exDup 1 = none := by
  refine ⟨⟨⟨2, 0, "dup", some 3, 1, none⟩, ?_, rfl, rfl, rfl, rfl⟩, rfl, rfl, rfl⟩
  exact List.mem_cons_of_mem _ (List.mem_cons_self _ _)

/-- C3 amended: the move endpoint performs no name-uniqueness re-check.
Whenever the folder and target parent validate and the cycle check
passes, the move succeeds even though an active folder with the moved
folder's name already exists under the destination. -/
theorem moveFolder_ignores_name_conflicts (s : St) (u F P : Nat) (f g : Folder)
    (hF : lookupActiveOwned s u F = some f) (hP : lookupActiveOwned s u P = some g)
    (hc : ¬(F ∈ ancChain (par s) s.folders.length P ∨ F = P))
    (_hdup : ∃ d ∈ s.folders, d.fid ≠ F ∧ d.owner = u ∧ d.parent = some P
      ∧ d.deletedAt = none ∧ d.name = f.name) :
    moveFolder s u F (some P) = .ok (setParent s F (some P)) := by
  unfold moveFolder
  simp only [hF, hP]
  rw [if_neg hc]

/-- Witness for the amended C3 at the concrete duplicate-name store. -/
theorem moveFolder_ignores_name_conflicts_witness :
    lookupActiveOwned exDup 0 1 = some ⟨1, 0, "dup", none, 0, none⟩
    ∧ lookupActiveOwned exDup 0 3 = some ⟨3, 0, "P", none, 2, none⟩
    ∧ ¬(1 ∈ ancChain (par exDup) exDup.folders.length 3 ∨ 1 = 3)
    ∧ (∃ d ∈ exDup.folders, d.fid ≠ 1 ∧ d.owner = 0 ∧ d.parent = some 3
      ∧ d.deletedAt = none ∧ d.name = "dup")
    ∧ moveFolder exDup 0 1 (some 3) = .ok (setParent exDup 1 (some 3)) :=
  ⟨rfl, rfl, by decide, by decide,
    moveFolder_ignores_name_conflicts exDup 0 1 3 ⟨1, 0, "dup", none, 0, none⟩
      ⟨3, 0, "P", none, 2, none⟩ rfl rfl (by decide) (by decide)⟩


/-- Errors raised by `FolderCreateSerializer`. -/
inductive CrErr where
  | emptyName
  | invalidChar
  | parentNotFound
  | parentWrongOwner
  | parentDeleted
  | nameConflict
  deriving Repr, DecidableEq

/-- The characters removed by Python's `str.strip()`. -/
def pyWhitespace (c : Char) : Bool :=
  c == ' ' || c == '\t' || c == '\n' || c == '\r' || c == '\x0b' || c == '\x0c'

/-- Python's `str.strip()`: drop leading and trailing whitespace. -/
def pyStrip (v : String) : String :=
  ⟨((v.data.dropWhile pyWhitespace).reverse.dropWhile pyWhitespace).reverse⟩

/-- The path-control characters rejected in folder names. -/
def invalidChars : List Char := ['/', '\\', ':', '*', '?', '"', '<', '>', '|']

/-- `FolderCreateSerializer.validate_name`: reject a name that is empty
after stripping, reject any invalid character (checked on the unstripped
value), and return the stripped name. -/
def validate_name (v : String) : Except CrErr String :=
  if (pyStrip v).isEmpty then .error .emptyName
  else if v.data.any (fun c => invalidChars.contains c) then .error .invalidChar
  else .ok (pyStrip v)

/-- `FolderCreateSerializer.validate_parent` together with the model
serializer's primary-key resolution of the `parent` field: when given,
the id must denote a stored folder, owned by the requester and not
soft-deleted. -/
def validate_parent (s : St) (u : Nat) : Option Nat → Except CrErr (Option Nat)
  | none => .ok none
  | some pid =>
    match findFolder s pid with
    | none => .error .parentNotFound
    | some p =>
      if p.owner ≠ u then .error .parentWrongOwner
      else if !p.deletedAt.isNone then .error .parentDeleted
      else .ok (some pid)

/-- Lower-cased character content of a string (for `name__iexact`). -/
def lowerData (v : String) : List Char := v.data.map Char.toLower

/-- `name__iexact`: case-insensitive name comparison. -/
def lowerEq (a b : String) : Bool := lowerData a == lowerData b

/-- The duplicate check of `FolderCreateSerializer.validate`: an active
folder of the same user, under the same parent, with the same name
case-insensitively. -/
def dupExists (s : St) (u : Nat) (pid : Option Nat) (nm : String) : Bool :=
  s.folders.any (fun g =>
    g.owner == u && g.parent == pid && lowerEq g.name nm && g.deletedAt.isNone)

/-- `FolderCreateSerializer` end to end plus `perform_create`: validate
the name, resolve and validate the parent, check active-sibling
uniqueness, then insert the new row (stripped name, requesting user as
owner, active). -/
def createFolder (s : St) (u : Nat) (nm : String) (pid : Option Nat)
    (newId t : Nat) : Except CrErr St :=
  (validate_name nm).bind fun nm' =>
    (validate_parent s u pid).bind fun pid' =>
      if dupExists s u pid' nm' then .error .nameConflict
      else .ok { s with folders := s.folders ++ [⟨newId, u, nm', pid', t, none⟩] }

theorem validate_name_ok (v : String) :
    (validate_name v).isOk = true
      ↔ ¬(pyStrip v).isEmpty = true ∧ ∀ c ∈ v.data, c ∉ invalidChars := by
  unfold validate_name
  by_cases h1 : (pyStrip v).isEmpty
  · simp [h1, Except.isOk, Except.toBool]
  · by_cases h2 : v.data.any (fun c => invalidChars.contains c)
    · rw [if_neg h1, if_pos h2]
      simp only [Except.isOk, Except.toBool, Bool.false_eq_true, false_iff, not_and]
      intro _ hall
      rw [List.any_eq_true] at h2
      obtain ⟨c, hc, hmem⟩ := h2
      exact hall c hc (by simpa using hmem)
    · rw [if_neg h1, if_neg h2]
      simp only [Except.isOk, Except.toBool, true_iff]
      refine ⟨h1, fun c hc hmem => h2 ?_⟩
      rw [List.any_eq_true]
      exact ⟨c, hc, by simpa using hmem⟩

theorem validate_name_ok_val {v nm' : String} (h : validate_name v = .ok nm') :
    nm' = pyStrip v := by
  unfold validate_name at h
  by_cases h1 : (pyStrip v).isEmpty
  · rw [if_pos h1] at h; cases h
  · by_cases h2 : v.data.any (fun c => invalidChars.contains c)
    · rw [if_neg h1, if_pos h2] at h; cases h
    · rw [if_neg h1, if_neg h2] at h; cases h; rfl

theorem validate_parent_ok (s : St) (u : Nat) (pid : Option Nat) :
    (validate_parent s u pid).isOk = true
      ↔ ∀ p, pid = some p →
          ∃ pf, findFolder s p = some pf ∧ pf.owner = u ∧ pf.deletedAt = none := by
  cases pid with
  | none => simp [validate_parent, Except.isOk, Except.toBool]
  | some p =>
    unfold validate_parent
    cases hf : findFolder s p with
    | none =>
      simp only [hf, Except.isOk, Except.toBool, Bool.false_eq_true, false_iff]
      intro hall
      obtain ⟨pf, hpf, _⟩ := hall p rfl
      rw [hf] at hpf
      cases hpf
    | some pf =>
      simp only [hf]
      by_cases ho : pf.owner ≠ u
      · rw [if_pos ho]
        simp only [Except.isOk, Except.toBool, Bool.false_eq_true, false_iff]
        intro hall
        obtain ⟨pf', hpf', how, _⟩ := hall p rfl
        rw [hf] at hpf'
        cases hpf'
        exact ho how
      · by_cases hd : !pf.deletedAt.isNone
        · rw [if_neg ho, if_pos hd]
          simp only [Except.isOk, Except.toBool, Bool.false_eq_true, false_iff]
          intro hall
          obtain ⟨pf', hpf', _, hdel⟩ := hall p rfl
          rw [hf] at hpf'
          cases hpf'
          rw [hdel] at hd
          simp at hd
        · rw [if_neg ho, if_neg hd]
          simp only [Except.isOk, Except.toBool, true_iff]
          push_neg at ho
          simp only [Bool.not_eq_true', Bool.not_eq_false] at hd
          rintro q hq
          cases hq
          exact ⟨pf, hf, ho, by simpa using hd⟩

theorem validate_parent_ok_val {s : St} {u : Nat} {pid pid' : Option Nat}
    (h : validate_parent s u pid = .ok pid') : pid' = pid := by
  cases pid with
  | none => cases h; rfl
  | some p =>
    unfold validate_parent at h
    cases hf : findFolder s p with
    | none =>
      simp only [hf] at h
      exact nomatch h
    | some pf =>
      simp only [hf] at h
      by_cases ho : pf.owner ≠ u
      · rw [if_pos ho] at h; cases h
      · by_cases hd : !pf.deletedAt.isNone
        · rw [if_neg ho, if_pos hd] at h; cases h
        · rw [if_neg ho, if_neg hd] at h; cases h; rfl

theorem dupExists_iff (s : St) (u : Nat) (pid : Option Nat) (nm : String) :
    dupExists s u pid nm = true
      ↔ ∃ g ∈ s.folders, g.owner = u ∧ g.parent = pid
          ∧ lowerData g.name = lowerData nm ∧ g.deletedAt = none := by
  unfold dupExists lowerEq
  rw [List.any_eq_true]
  constructor
  · rintro ⟨g, hg, hcond⟩
    simp only [Bool.and_eq_true, beq_iff_eq, Option.isNone_iff_eq_none] at hcond
    exact ⟨g, hg, hcond.1.1.1, hcond.1.1.2, hcond.1.2, hcond.2⟩
  · rintro ⟨g, hg, h1, h2, h3, h4⟩
    exact ⟨g, hg, by simp [h1, h2, h3, h4]⟩
theorem except_bind_ok {α β ε : Type} (a : α) (f : α → Except ε β) :
    (Except.ok a).bind f = f a := rfl

theorem except_bind_error {α β ε : Type} (e : ε) (f : α → Except ε β) :
    (Except.error e).bind f = (.error e : Except ε β) := rfl

theorem validate_name_ok_of (v : String) (h1 : ¬(pyStrip v).isEmpty = true)
    (h2 : ∀ c ∈ v.data, c ∉ invalidChars) :
    validate_name v = .ok (pyStrip v) := by
  unfold validate_name
  rw [if_neg h1, if_neg ?hany]
  case hany =>
    rw [List.any_eq_true]
    rintro ⟨c, hc, hmem⟩
    exact h2 c hc (by simpa using hmem)

theorem validate_parent_ok_of (s : St) (u : Nat) (pid : Option Nat)
    (h : ∀ p, pid = some p →
      ∃ pf, findFolder s p = some pf ∧ pf.owner = u ∧ pf.deletedAt = none) :
    validate_parent s u pid = .ok pid := by
  cases pid with
  | none => rfl
  | some p =>
    obtain ⟨pf, hf, ho, hd⟩ := h p rfl
    unfold validate_parent
    simp only [hf]
    rw [if_neg (by simp [ho]), if_neg (by simp [hd])]

/-- C4.  Create validation contract: the create endpoint succeeds exactly
when the name is non-empty after trimming and free of path-control
characters, the parent (when given) is a stored folder of the same owner
that is not soft-deleted, and no active folder of that owner under that
parent already carries the name case-insensitively; a success appends
exactly one new active row holding the trimmed name — so an error
creates nothing. -/
theorem createFolder_contract (s : St) (u : Nat) (nm : String) (pid : Option Nat)
    (newId t : Nat) :
    ((createFolder s u nm pid newId t).isOk = true
      ↔ (¬(pyStrip nm).isEmpty = true
          ∧ (∀ c ∈ nm.data, c ∉ invalidChars)
          ∧ (∀ p, pid = some p →
              ∃ pf, findFolder s p = some pf ∧ pf.owner = u ∧ pf.deletedAt = none)
          ∧ ¬∃ g ∈ s.folders, g.owner = u ∧ g.parent = pid
              ∧ lowerData g.name = lowerData (pyStrip nm) ∧ g.deletedAt = none))
    ∧ (∀ s', createFolder s u nm pid newId t = .ok s' →
        s'.folders = s.folders ++ [⟨newId, u, pyStrip nm, pid, t, none⟩]
          ∧ s'.files = s.files) := by
  constructor
  · constructor
    · intro hok
      cases hn : validate_name nm with
      | error e =>
        unfold createFolder at hok
        rw [hn, except_bind_error] at hok
        simp [Except.isOk, Except.toBool] at hok
      | ok nm' =>
        have hnV := (validate_name_ok nm).mp (by rw [hn]; rfl)
        have hnm' := validate_name_ok_val hn
        cases hp : validate_parent s u pid with
        | error e =>
          unfold createFolder at hok
          rw [hn, except_bind_ok, hp, except_bind_error] at hok
          simp [Except.isOk, Except.toBool] at hok
        | ok pid' =>
          have hpV := (validate_parent_ok s u pid).mp (by rw [hp]; rfl)
          have hpid' := validate_parent_ok_val hp
          unfold createFolder at hok
          rw [hn, except_bind_ok, hp, except_bind_ok] at hok
          by_cases hdup : dupExists s u pid' nm' = true
          · rw [if_pos hdup] at hok
            simp [Except.isOk, Except.toBool] at hok
          · refine ⟨hnV.1, hnV.2, hpV, fun hex => hdup ?_⟩
            rw [hnm', hpid']
            exact (dupExists_iff _ _ _ _).mpr hex
    · rintro ⟨h1, h2, h3, h4⟩
      have hn := validate_name_ok_of nm h1 h2
      have hp := validate_parent_ok_of s u pid h3
      have hdup : ¬dupExists s u pid (pyStrip nm) = true :=
        fun hd => h4 ((dupExists_iff _ _ _ _).mp hd)
      unfold createFolder
      rw [hn, except_bind_ok, hp, except_bind_ok, if_neg hdup]
      rfl
  · intro s' hok
    unfold createFolder at hok
    cases hn : validate_name nm with
    | error e =>
      rw [hn, except_bind_error] at hok
      exact nomatch hok
    | ok nm' =>
      have hnm' := validate_name_ok_val hn
      rw [hn, except_bind_ok] at hok
      cases hp : validate_parent s u pid with
      | error e =>
        rw [hp, except_bind_error] at hok
        exact nomatch hok
      | ok pid' =>
        have hpid' := validate_parent_ok_val hp
        rw [hp, except_bind_ok] at hok
        by_cases hdup : dupExists s u pid' nm' = true
        · rw [if_pos hdup] at hok
          exact nomatch hok
        · rw [if_neg hdup] at hok
          simp only [Except.ok.injEq] at hok
          rw [← hok, hnm', hpid']
          exact ⟨rfl, rfl⟩

/-- Witness for C4: a concrete successful create appends the trimmed name
(the inner success hypothesis is discharged by computation). -/
theorem createFolder_contract_witness :
    (createFolder exAB 0 " C " (some 1) 7 5
        = .ok { folders := exAB.folders ++ [⟨7, 0, "C", some 1, 5, none⟩],
                files := [] })
    ∧ ({ folders := exAB.folders ++ [⟨7, 0, "C", some 1, 5, none⟩],
          files := ([] : List FileRec) } : St).folders
        = exAB.folders ++ [⟨7, 0, pyStrip " C ", some 1, 5, none⟩] := by
  have h : createFolder exAB 0 " C " (some 1) 7 5
      = .ok { folders := exAB.folders ++ [⟨7, 0, "C", some 1, 5, none⟩], files := [] } := by
    rfl
  exact ⟨h, ((createFolder_contract exAB 0 " C " (some 1) 7 5).2 _ h).1⟩

/-- The single error the folder detail/restore/contents/breadcrumbs views
surface: the `get_object_or_404` 404. -/
inductive WebErr where
  | notFound
  deriving Repr, DecidableEq

/-- The parent step restricted to active folders (the spec's cascades
walk over active children). -/
def parActive (s : St) (x : Nat) : Option Nat :=
  if isActive s x then par s x else none

/-- Modelled from the spec: `Folder.soft_delete` (absent from the
available sources) stamps the folder and every descendant reached
through active folders with one shared timestamp and cascades the same
stamp to the active files contained in any of them. -/
def softDeleteCascade (s : St) (rootId t : Nat) : St :=
  { folders := s.folders.map (fun g =>
      if (g.fid == rootId
            || (ancChain (parActive s) s.folders.length g.fid).contains rootId)
          && g.deletedAt.isNone then { g with deletedAt := some t } else g),
    files := s.files.map (fun h =>
      if (match h.folder with
          | some j => j == rootId
              || (ancChain (parActive s) s.folders.length j).contains rootId
          | none => false)
          && h.deletedAt.isNone then { h with deletedAt := some t } else h) }

/-- Embeds the DELETE branch of `FolderDetailView`: the queryset 404
filter (user, active), then `instance.soft_delete()`. -/
def deleteFolder (s : St) (u i t : Nat) : Except WebErr St :=
  match lookupActiveOwned s u i with
  | none => .error .notFound
  | some _ => .ok (softDeleteCascade s i t)

/-- The store after a DELETE request; unchanged when it 404s. -/
def applyDelete (s : St) (u i t : Nat) : St :=
  match deleteFolder s u i t with
  | .ok s' => s'
  | .error _ => s

/-- Modelled from the spec: `Folder.restore` (absent from the available
sources) clears the folder's deleted-at stamp and that of every
descendant folder and contained file soft-deleted in the same cascade
(carrying the identical timestamp). -/
def restoreCascade (s : St) (rootId : Nat) : St :=
  match findFolder s rootId with
  | none => s
  | some f =>
    match f.deletedAt with
    | none => s
    | some t =>
      { folders := s.folders.map (fun g =>
          if (g.fid == rootId
                || (ancChain (par s) s.folders.length g.fid).contains rootId)
              && g.deletedAt == some t then { g with deletedAt := none } else g),
        files := s.files.map (fun h =>
          if (match h.folder with
              | some j => j == rootId
                  || (ancChain (par s) s.folders.length j).contains rootId
              | none => false)
              && h.deletedAt == some t then { h with deletedAt := none } else h) }

/-- Embeds the `restore_folder` view: 404 lookup over
(id, user, `deleted_at__isnull=False`), then `folder.restore()`. -/
def restore_folder (s : St) (u i : Nat) : Except WebErr St :=
  match lookupDeletedOwned s u i with
  | none => .error .notFound
  | some _ => .ok (restoreCascade s i)

theorem find?_fid_of_mem_list {l : List Folder}
    (hnd : (l.map (fun f => f.fid)).Nodup) {f : Folder} (hmem : f ∈ l) :
    l.find? (fun g => g.fid == f.fid) = some f := by
  induction l with
  | nil => cases hmem
  | cons hd tl ih =>
    rw [List.map_cons, List.nodup_cons] at hnd
    rcases List.mem_cons.mp hmem with rfl | hmem'
    · rw [List.find?_cons_of_pos _ (by simp)]
    · have hne : ¬(hd.fid == f.fid) = true := by
        simp only [beq_iff_eq]
        intro he
        exact hnd.1 (by rw [he]; exact List.mem_map_of_mem _ hmem')
      rw [List.find?_cons_of_neg _ (by exact hne)]
      exact ih hnd.2 hmem'

theorem findFolder_of_mem {s : St} (hwf : WF s) {f : Folder} (hmem : f ∈ s.folders) :
    findFolder s f.fid = some f :=
  find?_fid_of_mem_list hwf hmem

/-- After a soft delete, the folder no longer passes the active-owned
404 filter. -/
theorem lookup_after_delete (s : St) (u i t : Nat) :
    lookupActiveOwned (softDeleteCascade s i t) u i = none := by
  unfold lookupActiveOwned softDeleteCascade
  rw [List.find?_eq_none]
  intro g' hg'
  simp only [List.mem_map] at hg'
  obtain ⟨g, hg, rfl⟩ := hg'
  by_cases hfid : g.fid = i
  · by_cases hact : g.deletedAt.isNone
    · rw [if_pos (by simp [hfid, hact])]
      simp
    · rw [if_neg (by simp [hact])]
      simp [hact]
  · by_cases hc : ((g.fid == i
        || (ancChain (parActive s) s.folders.length g.fid).contains i)
        && g.deletedAt.isNone) = true
    · rw [if_pos hc]
      simp [hfid]
    · rw [if_neg hc]
      simp [hfid]

/-- Counterexample to C5 as stated: folder 1 of the two-folder store is
active, yet the restore endpoint answers 404 — it does not return the
folder's current state as a no-op. -/
theorem restore_active_counterexample :
    isActive exAB 1 = true ∧ restore_folder exAB 0 1 = .error .notFound :=
  ⟨rfl, rfl⟩

/-- C5 amended: soft-deleting twice leaves the same store as once — the
second request fails the active 404 filter and writes nothing — and
restoring an already-active folder is rejected with 404 (a no-op on the
store that does not return the folder). -/
theorem softDelete_twice_restore_active (s : St) (u i t₁ t₂ : Nat) (hwf : WF s) :
    applyDelete (applyDelete s u i t₁) u i t₂ = applyDelete s u i t₁
    ∧ (isActive s i = true → restore_folder s u i = .error .notFound) := by
  constructor
  · cases hl : lookupActiveOwned s u i with
    | none =>
      have h1 : applyDelete s u i t₁ = s := by
        simp [applyDelete, deleteFolder, hl]
      rw [h1]
      simp [applyDelete, deleteFolder, hl]
    | some f =>
      have h1 : applyDelete s u i t₁ = softDeleteCascade s i t₁ := by
        simp [applyDelete, deleteFolder, hl]
      rw [h1]
      simp [applyDelete, deleteFolder, lookup_after_delete]
  · intro hact
    unfold restore_folder
    have hnone : lookupDeletedOwned s u i = none := by
      unfold lookupDeletedOwned
      rw [List.find?_eq_none]
      intro g hg hpred
      simp only [Bool.and_eq_true, beq_iff_eq] at hpred
      have hfind : findFolder s i = some g := by
        rw [← hpred.1.1]
        exact findFolder_of_mem hwf hg
      unfold isActive at hact
      simp only [hfind] at hact
      simp [hact] at hpred
    rw [hnone]

/-- Witness for the amended C5 at the two-folder store. -/
theorem softDelete_twice_restore_active_witness :
    WF exAB
    ∧ (applyDelete (applyDelete exAB 0 1 3) 0 1 4 = applyDelete exAB 0 1 3
      ∧ (isActive exAB 1 = true → restore_folder exAB 0 1 = .error .notFound)) :=
  ⟨by unfold WF; decide, softDelete_twice_restore_active exAB 0 1 3 4 (by unfold WF; decide)⟩

/-- Embeds the GET branch of `FolderDetailView`: queryset filtered by
(user, active), 404 otherwise; the response carries the folder row. -/
def getFolder (s : St) (u i : Nat) : Except WebErr Folder :=
  match lookupActiveOwned s u i with
  | none => .error .notFound
  | some f => .ok f

/-- Embeds `folder_contents`: 404 lookup, then the folder's active
immediate subfolders, its active files, and the total item count. -/
def folder_contents (s : St) (u i : Nat) :
    Except WebErr (List Folder × List FileRec × Nat) :=
  match lookupActiveOwned s u i with
  | none => .error .notFound
  | some _ =>
    let subs := s.folders.filter (fun g => g.parent == some i && g.deletedAt.isNone)
    let fls := s.files.filter (fun h => h.folder == some i && h.deletedAt.isNone)
    .ok (subs, fls, subs.length + fls.length)

/-- Modelled from the spec: `get_full_path` joins the names along the
ancestor chain (root first) and the folder itself with `/`. -/
def get_full_path (s : St) (i : Nat) : String :=
  String.intercalate "/"
    (((ancChain (par s) s.folders.length i).reverse ++ [i]).filterMap
      (fun j => (findFolder s j).map (fun f => f.name)))

/-- Embeds `folder_breadcrumbs`: 404 lookup, then the ancestors plus the
folder itself as (id, name, path) triples. -/
def folder_breadcrumbs (s : St) (u i : Nat) :
    Except WebErr (List (Nat × String × String)) :=
  match lookupActiveOwned s u i with
  | none => .error .notFound
  | some _ =>
    .ok (((ancChain (par s) s.folders.length i).reverse ++ [i]).filterMap
      (fun j => (findFolder s j).map (fun f => (f.fid, f.name, get_full_path s f.fid))))

/-- Both 404 lookups fail when the row exists under another owner. -/
theorem lookups_none_of_cross_owner {s : St} {u i : Nat} {f : Folder}
    (hwf : WF s) (hf : findFolder s i = some f) (hne : f.owner ≠ u) :
    lookupActiveOwned s u i = none ∧ lookupDeletedOwned s u i = none := by
  constructor
  · unfold lookupActiveOwned
    rw [List.find?_eq_none]
    intro g hg hpred
    simp only [Bool.and_eq_true, beq_iff_eq] at hpred
    have hfind : findFolder s i = some g := by
      rw [← hpred.1.1]
      exact findFolder_of_mem hwf hg
    rw [hf] at hfind
    have hfg : f = g := Option.some.inj hfind
    exact hne (by rw [hfg]; exact hpred.1.2)
  · unfold lookupDeletedOwned
    rw [List.find?_eq_none]
    intro g hg hpred
    simp only [Bool.and_eq_true, beq_iff_eq] at hpred
    have hfind : findFolder s i = some g := by
      rw [← hpred.1.1]
      exact findFolder_of_mem hwf hg
    rw [hf] at hfind
    have hfg : f = g := Option.some.inj hfind
    exact hne (by rw [hfg]; exact hpred.1.2)

/-- C6.  Owner scoping: a folder id that exists but belongs to a
different owner is rejected by every folder operation — get, move,
restore, contents, breadcrumbs — and the move rejection leaves the store
unchanged. -/
theorem cross_owner_rejected (s : St) (u i : Nat) (f : Folder) (pid : Option Nat)
    (hwf : WF s) (hf : findFolder s i = some f) (hne : f.owner ≠ u) :
    getFolder s u i = .error .notFound
    ∧ moveFolder s u i pid = .error .notFound
    ∧ applyMove s u i pid = s
    ∧ restore_folder s u i = .error .notFound
    ∧ folder_contents s u i = .error .notFound
    ∧ folder_breadcrumbs s u i = .error .notFound := by
  obtain ⟨hA, hD⟩ := lookups_none_of_cross_owner hwf hf hne
  refine ⟨?_, ?_, ?_, ?_, ?_, ?_⟩
  · simp [getFolder, hA]
  · simp [moveFolder, hA]
  · simp [applyMove, moveFolder, hA]
  · simp [restore_folder, hD]
  · simp [folder_contents, hA]
  · simp [folder_breadcrumbs, hA]

/-- Witness for C6: user 5 requesting user 0's folder 1. -/
theorem cross_owner_rejected_witness :
    WF exAB
    ∧ findFolder exAB 1 = some ⟨1, 0, "A", none, 0, none⟩
    ∧ (Folder.owner ⟨1, 0, "A", none, 0, none⟩ ≠ 5)
    ∧ (getFolder exAB 5 1 = .error .notFound
      ∧ moveFolder exAB 5 1 none = .error .notFound
      ∧ applyMove exAB 5 1 none = exAB
      ∧ restore_folder exAB 5 1 = .error .notFound
      ∧ folder_contents exAB 5 1 = .error .notFound
      ∧ folder_breadcrumbs exAB 5 1 = .error .notFound) :=
  ⟨by unfold WF; decide, rfl, by decide,
    cross_owner_rejected exAB 5 1 ⟨1, 0, "A", none, 0, none⟩ none
      (by unfold WF; decide) rfl (by decide)⟩

/-- Sum of sizes of the active files directly in folder `i`
(`obj.files.filter(deleted_at__isnull=True)` aggregated over
`file_size`). -/
def filesSizeIn (s : St) (i : Nat) : Nat :=
  ((s.files.filter (fun h => h.folder == some i && h.deletedAt.isNone)).map
    (fun h => h.fileSize)).sum

/-- Modelled from the spec: `Folder.get_descendants` — the folders lying
strictly below the given folder in the parent relation.  The serializer
separately filters soft-deleted rows, so whether deleted rows appear
here is immaterial to the total. -/
def get_descendants (s : St) (i : Nat) : List Folder :=
  s.folders.filter (fun g => (ancChain (par s) s.folders.length g.fid).contains i)

/-- `FolderDetailSerializer.get_total_size`: the folder's own active file
sizes, then one addition per non-deleted descendant of that
descendant's active file sizes. -/
def get_total_size (s : St) (i : Nat) : Nat :=
  ((get_descendants s i).filter (fun d => d.deletedAt.isNone)).foldl
    (fun acc d => acc + filesSizeIn s d.fid) (filesSizeIn s i)

/-- The claim's file-centric total: every active file lying directly in
the folder or in one of its active descendant folders, counted once. -/
def specTotalSize (s : St) (i : Nat) : Nat :=
  ((s.files.filter (fun h =>
      (match h.folder with
        | some j => j == i
            || ((ancChain (par s) s.folders.length j).contains i && isActive s j)
        | none => false)
        && h.deletedAt.isNone)).map (fun h => h.fileSize)).sum

theorem foldl_add_sum {α : Type} (f : α → Nat) (l : List α) (a : Nat) :
    l.foldl (fun acc d => acc + f d) a = a + (l.map f).sum := by
  induction l generalizing a with
  | nil => simp
  | cons hd tl ih => simp [ih, Nat.add_assoc]

theorem sum_filter_or {α : Type} (f : α → Nat) (p q : α → Bool) (l : List α)
    (hdisj : ∀ x ∈ l, ¬(p x = true ∧ q x = true)) :
    ((l.filter (fun x => p x || q x)).map f).sum
      = ((l.filter p).map f).sum + ((l.filter q).map f).sum := by
  induction l with
  | nil => simp
  | cons hd tl ih =>
    have htl : ∀ x ∈ tl, ¬(p x = true ∧ q x = true) :=
      fun x hx => hdisj x (List.mem_cons_of_mem _ hx)
    have hhd := hdisj hd (List.mem_cons_self _ _)
    cases hp : p hd with
    | true =>
      cases hq : q hd with
      | true => exact absurd ⟨hp, hq⟩ hhd
      | false =>
        simp only [List.filter_cons, hp, hq, Bool.true_or, if_true]
        simp [ih htl]
        omega
    | false =>
      cases hq : q hd with
      | true =>
        simp only [List.filter_cons, hp, hq, Bool.false_or, if_true]
        simp [ih htl]
        omega
      | false =>
        simp only [List.filter_cons, hp, hq, Bool.false_or, if_false]
        simp [ih htl]

theorem sum_over_folders (s : St) (ds : List Nat) (hnd : ds.Nodup) :
    (ds.map (fun j => filesSizeIn s j)).sum
      = ((s.files.filter (fun h =>
          (match h.folder with | some j => ds.contains j | none => false)
            && h.deletedAt.isNone)).map (fun h => h.fileSize)).sum := by
  induction ds with
  | nil =>
    have hfalse : ∀ h ∈ s.files,
        ¬((match h.folder with | some j => ([] : List Nat).contains j | none => false)
          && h.deletedAt.isNone) = true := by
      intro h _
      cases h.folder <;> simp
    simp only [List.map_nil, List.sum_nil]
    rw [List.filter_eq_nil_iff.mpr hfalse]
    rfl
  | cons d ds ih =>
    rw [List.nodup_cons] at hnd
    have hcongr : s.files.filter (fun h =>
        (match h.folder with | some j => (d :: ds).contains j | none => false)
          && h.deletedAt.isNone)
      = s.files.filter (fun h =>
          (h.folder == some d && h.deletedAt.isNone)
            || ((match h.folder with | some j => ds.contains j | none => false)
                && h.deletedAt.isNone)) := by
      apply List.filter_congr
      intro h _
      cases hj : h.folder with
      | none => simp
      | some j =>
        show ((d :: ds).contains j && h.deletedAt.isNone)
          = ((j == d && h.deletedAt.isNone) || (ds.contains j && h.deletedAt.isNone))
        rw [List.contains_cons]
        cases j == d <;> cases ds.contains j <;> cases h.deletedAt.isNone <;> rfl
    rw [List.map_cons, List.sum_cons, ih hnd.2, hcongr]
    rw [sum_filter_or]
    · rfl
    · intro h _ hboth
      obtain ⟨h1, h2⟩ := hboth
      rw [Bool.and_eq_true] at h1 h2
      have hfd : h.folder = some d := by simpa using h1.1
      rw [hfd] at h2
      have : ds.contains d = true := h2.1
      exact hnd.1 (List.elem_iff.mp this)

/-- Descendant-row membership by id: `j` occurs among the non-deleted
rows of `get_descendants s i` exactly when `i` lies in `j`'s ancestor
chain and `j` is active. -/
theorem mem_descIds (s : St) (hwf : WF s) (i j : Nat) :
    (((get_descendants s i).filter (fun d => d.deletedAt.isNone)).map
        (fun d => d.fid)).contains j
      = ((ancChain (par s) s.folders.length j).contains i && isActive s j) := by
  have hiff : (((get_descendants s i).filter (fun d => d.deletedAt.isNone)).map
      (fun d => d.fid)).contains j = true
      ↔ ((ancChain (par s) s.folders.length j).contains i && isActive s j) = true := by
    rw [List.elem_iff, List.mem_map]
    constructor
    · rintro ⟨d, hd, rfl⟩
      rw [List.mem_filter] at hd
      obtain ⟨hd1, hdact⟩ := hd
      unfold get_descendants at hd1
      rw [List.mem_filter] at hd1
      obtain ⟨hmem, hchain⟩ := hd1
      rw [Bool.and_eq_true]
      refine ⟨hchain, ?_⟩
      unfold isActive
      rw [findFolder_of_mem hwf hmem]
      exact hdact
    · intro hb
      rw [Bool.and_eq_true] at hb
      unfold isActive at hb
      cases hff : findFolder s j with
      | none => rw [hff] at hb; simp at hb
      | some g =>
        rw [hff] at hb
        have hmem : g ∈ s.folders := List.mem_of_find?_eq_some
          (show s.folders.find? (fun f => f.fid == j) = some g from hff)
        have hfid : g.fid = j := findFolder_fid hff
        refine ⟨g, ?_, hfid⟩
        rw [List.mem_filter]
        refine ⟨?_, hb.2⟩
        unfold get_descendants
        rw [List.mem_filter]
        exact ⟨hmem, by rw [hfid]; exact hb.1⟩
  revert hiff
  cases (((get_descendants s i).filter (fun d => d.deletedAt.isNone)).map
      (fun d => d.fid)).contains j <;>
    cases ((ancChain (par s) s.folders.length j).contains i && isActive s j) <;>
    simp

/-- C7.  Subtree size aggregation: in a well-formed, acyclic store the
serializer's `total_size` equals the sum of sizes of active files
directly in the folder plus those in every active descendant folder;
soft-deleted files and files inside soft-deleted descendants contribute
nothing. -/
theorem get_total_size_spec (s : St) (i : Nat) (hwf : WF s) (hacyc : Acyc s) :
    get_total_size s i = specTotalSize s i := by
  unfold get_total_size
  rw [foldl_add_sum]
  have hmapmap : ((get_descendants s i).filter (fun d => d.deletedAt.isNone)).map
      (fun d => filesSizeIn s d.fid)
    = (((get_descendants s i).filter (fun d => d.deletedAt.isNone)).map
        (fun d => d.fid)).map (fun j => filesSizeIn s j) := by
    rw [List.map_map]
    rfl
  set dsIds := ((get_descendants s i).filter (fun d => d.deletedAt.isNone)).map
    (fun d => d.fid) with hds
  have hsub : dsIds.Sublist (s.folders.map (fun f => f.fid)) := by
    rw [hds]
    exact List.Sublist.map _ ((List.filter_sublist _).trans (List.filter_sublist _))
  have hnd : dsIds.Nodup := List.Nodup.sublist hsub hwf
  have hnotin : ¬dsIds.contains i = true := by
    rw [mem_descIds s hwf i i]
    rw [Bool.and_eq_true]
    rintro ⟨hchain, hact⟩
    rcases mem_ancChain.mp (List.elem_iff.mp hchain) with ⟨n, _, hit⟩
    exact hacyc i hact ⟨n, hit⟩
  rw [hmapmap, sum_over_folders s dsIds hnd]
  unfold filesSizeIn
  rw [← sum_filter_or (fun h => h.fileSize)
      (fun h => h.folder == some i && h.deletedAt.isNone)
      (fun h => (match h.folder with | some j => dsIds.contains j | none => false)
        && h.deletedAt.isNone) s.files ?hdisj]
  case hdisj =>
    intro h _ hboth
    obtain ⟨h1, h2⟩ := hboth
    rw [Bool.and_eq_true] at h1 h2
    have hfd : h.folder = some i := by simpa using h1.1
    rw [hfd] at h2
    exact hnotin h2.1
  unfold specTotalSize
  congr 1
  apply congrArg
  apply List.filter_congr
  intro h _
  cases hj : h.folder with
  | none => simp
  | some j =>
    have hmd := mem_descIds s hwf i j
    rw [← hds] at hmd
    show ((j == i && h.deletedAt.isNone) || (dsIds.contains j && h.deletedAt.isNone))
      = ((j == i || ((ancChain (par s) s.folders.length j).contains i && isActive s j))
          && h.deletedAt.isNone)
    rw [← hmd]
    cases j == i <;> cases dsIds.contains j <;> cases h.deletedAt.isNone <;> rfl

/-- Example store with a subtree and files: root folder 1 with active
child 2 and soft-deleted child 3; files of sizes 100 (in 1), 50 (in 2),
7 (deleted, in 2), 1000 (in deleted 3). -/
def exSize : St :=
  { folders := [⟨1, 0, "root", none, 0, none⟩, ⟨2, 0, "sub", some 1, 1, none⟩,
      ⟨3, 0, "gone", some 1, 2, some 9⟩],
    files := [⟨10, 0, "a", some 1, 100, 0, none⟩, ⟨11, 0, "b", some 2, 50, 1, none⟩,
      ⟨12, 0, "c", some 2, 7, 2, some 9⟩, ⟨13, 0, "d", some 3, 1000, 3, none⟩] }

/-- Witness for C7: the example store is well-formed and acyclic, the two
totals agree, and they equal 100 + 50 (the deleted file and the file
under the deleted descendant contribute nothing). -/
theorem get_total_size_spec_witness :
    WF exSize ∧ Acyc exSize
    ∧ get_total_size exSize 1 = specTotalSize exSize 1
    ∧ get_total_size exSize 1 = 150 :=
  ⟨by unfold WF; decide, acyc_of_rows exSize (by decide),
    get_total_size_spec exSize 1 (by unfold WF; decide) (acyc_of_rows exSize (by decide)),
    by decide⟩

/-- `FolderListCreateView.get_queryset`: the owner's active folders; the
optional `parent` query parameter leaves the set unfiltered when absent
or empty (falsy), restricts to top-level folders when it spells `root`
case-insensitively, and otherwise filters by that parent id; the result
is ordered by name. -/
def folderList (s : St) (u : Nat) (param : Option String) : List Folder :=
  let base := s.folders.filter (fun f => f.owner == u && f.deletedAt.isNone)
  let filtered :=
    match param with
    | none => base
    | some p =>
      if p.isEmpty then base
      else if lowerData p == "root".data then base.filter (fun f => f.parent.isNone)
      else base.filter (fun f => f.parent == p.toNat?)
  filtered.mergeSort (fun a b => decide (a.name ≤ b.name))

/-- C8.  Without a `parent` query parameter the list endpoint returns
every active folder of the requester across all levels of the forest
(ordered by name), not only roots; the `root` parameter value is the one
that restricts the result to top-level folders. -/
theorem folderList_all_levels (s : St) (u : Nat) :
    (∀ f, f ∈ folderList s u none
      ↔ (f ∈ s.folders ∧ f.owner = u ∧ f.deletedAt = none))
    ∧ (∀ f, f ∈ folderList s u (some "root")
      ↔ (f ∈ s.folders ∧ f.owner = u ∧ f.deletedAt = none ∧ f.parent = none))
    ∧ (folderList s u none).Pairwise (fun a b => a.name ≤ b.name) := by
  refine ⟨?_, ?_, ?_⟩
  · intro f
    unfold folderList
    rw [(List.mergeSort_perm _ _).mem_iff]
    constructor
    · intro hf
      rw [List.mem_filter] at hf
      obtain ⟨h1, h2⟩ := hf
      simp only [Bool.and_eq_true, beq_iff_eq, Option.isNone_iff_eq_none] at h2
      exact ⟨h1, h2.1, h2.2⟩
    · rintro ⟨h1, h2, h3⟩
      rw [List.mem_filter]
      exact ⟨h1, by simp [h2, h3]⟩
  · intro f
    have hbranch : folderList s u (some "root")
        = ((s.folders.filter (fun f => f.owner == u && f.deletedAt.isNone)).filter
            (fun f => f.parent.isNone)).mergeSort (fun a b => decide (a.name ≤ b.name)) := rfl
    rw [hbranch, (List.mergeSort_perm _ _).mem_iff]
    constructor
    · intro hf
      rw [List.mem_filter] at hf
      obtain ⟨h1, h2⟩ := hf
      rw [List.mem_filter] at h1
      obtain ⟨h11, h12⟩ := h1
      simp only [Bool.and_eq_true, beq_iff_eq, Option.isNone_iff_eq_none] at h12
      simp only [Option.isNone_iff_eq_none] at h2
      exact ⟨h11, h12.1, h12.2, h2⟩
    · rintro ⟨h1, h2, h3, h4⟩
      rw [List.mem_filter]
      refine ⟨?_, by simp [h4]⟩
      rw [List.mem_filter]
      exact ⟨h1, by simp [h2, h3]⟩
  · have hpair := @List.sorted_mergeSort Folder
      (fun a b : Folder => decide (a.name ≤ b.name))
      (fun a b c hab hbc => decide_eq_true
        (le_trans (of_decide_eq_true hab) (of_decide_eq_true hbc)))
      (fun a b => by
        simp only [Bool.or_eq_true, decide_eq_true_eq]
        exact le_total a.name b.name)
      (s.folders.filter (fun f => f.owner == u && f.deletedAt.isNone))
    exact hpair.imp (fun hab => of_decide_eq_true hab)

/-- `FolderDetailSerializer.get_subfolders`: the folder's active
immediate subfolders, truncated to the first 10. -/
def detail_subfolders (s : St) (i : Nat) : List Folder :=
  (s.folders.filter (fun g => g.parent == some i && g.deletedAt.isNone)).take 10

/-- `FolderDetailSerializer.get_recent_files` before truncation: the
folder's active files, most recently created first. -/
def recent_sorted (s : St) (i : Nat) : List FileRec :=
  (s.files.filter (fun h => h.folder == some i && h.deletedAt.isNone)).mergeSort
    (fun a b => decide (b.createdAt ≤ a.createdAt))

/-- `FolderDetailSerializer.get_recent_files`: the five most recent. -/
def recent_files (s : St) (i : Nat) : List FileRec :=
  (recent_sorted s i).take 5

/-- C9.  The folder detail response truncates its embedded collections:
at most 10 active immediate subfolders and at most the 5 most recently
created active files are included (exactly 10 resp. 5 when more exist);
the file list is ordered newest-first and dominates everything cut
off. -/
theorem detail_truncation (s : St) (i : Nat) :
    (detail_subfolders s i).length
        = min 10 (s.folders.filter
            (fun g => g.parent == some i && g.deletedAt.isNone)).length
    ∧ (recent_files s i).length
        = min 5 (s.files.filter
            (fun h => h.folder == some i && h.deletedAt.isNone)).length
    ∧ (∀ g ∈ detail_subfolders s i,
        g ∈ s.folders ∧ g.parent = some i ∧ g.deletedAt = none)
    ∧ (∀ h ∈ recent_files s i,
        h ∈ s.files ∧ h.folder = some i ∧ h.deletedAt = none)
    ∧ (recent_files s i).Pairwise (fun a b => b.createdAt ≤ a.createdAt)
    ∧ (∀ a ∈ recent_files s i, ∀ b ∈ (recent_sorted s i).drop 5,
        b.createdAt ≤ a.createdAt) := by
  have hsortpair := @List.sorted_mergeSort FileRec
    (fun a b : FileRec => decide (b.createdAt ≤ a.createdAt))
    (fun a b c hab hbc => decide_eq_true
      (le_trans (of_decide_eq_true hbc) (of_decide_eq_true hab)))
    (fun a b => by
      simp only [Bool.or_eq_true, decide_eq_true_eq]
      exact (le_total b.createdAt a.createdAt))
    (s.files.filter (fun h => h.folder == some i && h.deletedAt.isNone))
  have hpair : (recent_sorted s i).Pairwise (fun a b => b.createdAt ≤ a.createdAt) :=
    hsortpair.imp (fun hab => of_decide_eq_true hab)
  refine ⟨?_, ?_, ?_, ?_, ?_, ?_⟩
  · exact List.length_take 10 _
  · unfold recent_files
    rw [List.length_take]
    unfold recent_sorted
    rw [(List.mergeSort_perm _ _).length_eq]
  · intro g hg
    have hmem := (List.take_sublist 10 _).subset hg
    rw [List.mem_filter] at hmem
    obtain ⟨h1, h2⟩ := hmem
    simp only [Bool.and_eq_true, beq_iff_eq, Option.isNone_iff_eq_none] at h2
    exact ⟨h1, h2.1, h2.2⟩
  · intro h hh
    have hmem := (List.take_sublist 5 _).subset hh
    unfold recent_sorted at hmem
    rw [(List.mergeSort_perm _ _).mem_iff, List.mem_filter] at hmem
    obtain ⟨h1, h2⟩ := hmem
    simp only [Bool.and_eq_true, beq_iff_eq, Option.isNone_iff_eq_none] at h2
    exact ⟨h1, h2.1, h2.2⟩
  · exact List.Pairwise.sublist (List.take_sublist 5 _) hpair
  · have hsplit := List.pairwise_append.mp
      (by rw [List.take_append_drop 5 (recent_sorted s i)]; exact hpair)
    exact fun a ha b hb => hsplit.2.2 a ha b hb

/-- Error raised by `MoveFileToFolderSerializer.validate_folder_id`. -/
inductive MfErr where
  | folderNotFound
  deriving Repr, DecidableEq

/-- `MoveFileToFolderSerializer` (`validate_folder_id` plus `save`): when
a target folder id is given it must denote an active folder of the
requester; the save then persists only the file's `folder` column
(`update_fields=['folder']`), set to the folder or to `none` (root). -/
def moveFileToFolder (s : St) (u fileId : Nat) (folderId : Option Nat) :
    Except MfErr St :=
  match folderId with
  | some fid' =>
    match lookupActiveOwned s u fid' with
    | none => .error .folderNotFound
    | some _ =>
      .ok { s with files := s.files.map (fun h =>
        if h.fid == fileId then { h with folder := some fid' } else h) }
  | none =>
    .ok { s with files := s.files.map (fun h =>
      if h.fid == fileId then { h with folder := none } else h) }

/-- C10.  Frame property of the file move: a successful move leaves the
folder table untouched and rewrites the file rows positionally so that
every persisted field except the folder reference — id, owner, name,
size, creation time, deleted-at — is unchanged; rows other than the
moved file are wholly unchanged and the moved row's folder becomes the
requested target. -/
theorem moveFileToFolder_frame (s : St) (u fileId : Nat) (folderId : Option Nat)
    (s' : St) (hok : moveFileToFolder s u fileId folderId = .ok s') :
    s'.folders = s.folders
    ∧ List.Forall₂ (fun h h' : FileRec =>
        h'.fid = h.fid ∧ h'.owner = h.owner ∧ h'.fname = h.fname
          ∧ h'.fileSize = h.fileSize ∧ h'.createdAt = h.createdAt
          ∧ h'.deletedAt = h.deletedAt
          ∧ (h.fid = fileId → h'.folder = folderId)
          ∧ (h.fid ≠ fileId → h' = h)) s.files s'.files := by
  have hs' : s' = { s with files := s.files.map (fun h =>
      if h.fid == fileId then { h with folder := folderId } else h) } := by
    cases folderId with
    | none =>
      have hok' : (Except.ok { s with files := s.files.map (fun h =>
          if h.fid == fileId then { h with folder := none } else h) } : Except MfErr St)
          = .ok s' := hok
      exact (Except.ok.inj hok').symm
    | some fid' =>
      unfold moveFileToFolder at hok
      cases hl : lookupActiveOwned s u fid' with
      | none => simp [hl] at hok
      | some g =>
        simp only [hl, Except.ok.injEq] at hok
        exact hok.symm
  subst hs'
  refine ⟨rfl, ?_⟩
  rw [List.forall₂_map_right_iff, List.forall₂_same]
  intro h _
  by_cases hf : h.fid = fileId
  · rw [if_pos (by simp [hf])]
    exact ⟨rfl, rfl, rfl, rfl, rfl, rfl, fun _ => rfl, fun hne => absurd hf hne⟩
  · rw [if_neg (by simp [hf])]
    exact ⟨rfl, rfl, rfl, rfl, rfl, rfl, fun he => absurd he hf, fun _ => rfl⟩

/-- Example store for the file move: one active folder, one unfiled file
and one already-filed file. -/
def exMove : St :=
  { folders := [⟨1, 0, "A", none, 0, none⟩],
    files := [⟨20, 0, "f", none, 42, 7, none⟩, ⟨21, 0, "g", some 1, 5, 8, none⟩] }

/-- The example store after moving file 20 into folder 1. -/
def exMoved : St :=
  { folders := [⟨1, 0, "A", none, 0, none⟩],
    files := [⟨20, 0, "f", some 1, 42, 7, none⟩, ⟨21, 0, "g", some 1, 5, 8, none⟩] }

/-- Witness for C10 at the concrete store. -/
theorem moveFileToFolder_frame_witness :
    moveFileToFolder exMove 0 20 (some 1) = .ok exMoved
    ∧ (exMoved.folders = exMove.folders
      ∧ List.Forall₂ (fun h h' : FileRec =>
          h'.fid = h.fid ∧ h'.owner = h.owner ∧ h'.fname = h.fname
            ∧ h'.fileSize = h.fileSize ∧ h'.createdAt = h.createdAt
            ∧ h'.deletedAt = h.deletedAt
            ∧ (h.fid = 20 → h'.folder = some 1)
            ∧ (h.fid ≠ 20 → h' = h)) exMove.files exMoved.files) :=
  ⟨rfl, moveFileToFolder_frame exMove 0 20 (some 1) exMoved rfl⟩
